import Mathlib

/-
  Verification of the cwdecoder core against its specification.

  Shallow embedding of the Go sources:
    internal/cw/morse.go      (Morse tree, Decoder)
    internal/cw/adaptive.go   (pattern-matching adaptation layer)
    internal/dsp/detector.go  (tone-presence Detector)
    internal/dsp/goertzel.go  (Goertzel estimator constructor)

  Go float64 values are modelled as rationals, Go int as Int, Go
  time.Time instants as rational millisecond timestamps (time.Now is an
  external oracle), and Go time.Duration values via their integer
  Milliseconds() projection wherever the source converts them that way.
  Callbacks are modelled by collecting the outputs each call would
  deliver into a list (the callback is taken to be registered).
-/

namespace CW

/- ===================== Morse lookup table ======================
   internal/cw/morse.go, var MorseTree [64]rune.  Rune 0 is the
   no-assignment sentinel. -/

def noChar : Char := Char.ofNat 0

def MorseTree : List Char :=
  [noChar, noChar, 'E', 'T', 'I', 'A', 'N', 'M',
   'S', 'U', 'R', 'W', 'D', 'K', 'G', 'O',
   'H', 'V', 'F', noChar, 'L', noChar, 'P', 'J',
   'B', 'X', 'C', 'Y', 'Z', 'Q', noChar, noChar,
   '5', '4', noChar, '3', noChar, noChar, noChar, '2',
   noChar, noChar, noChar, noChar, noChar, noChar, noChar, '1',
   '6', '=', '/', noChar, noChar, noChar, noChar, noChar,
   '7', noChar, noChar, noChar, '8', noChar, '9', '0']

theorem morseTree_length : MorseTree.length = 64 := by decide

theorem morseTree_length_int : (MorseTree.length : ℤ) = 64 := by decide

/- The ITU assignment exactly as the specification words it: the listed
   slots carry the listed characters, every other slot in the table is
   the no-assignment sentinel.  This definition is written from the
   specification text, to be compared with MorseTree above. -/

def ituAssignment : List (Nat × Char) :=
  [(2, 'E'), (3, 'T'), (4, 'I'), (5, 'A'), (6, 'N'), (7, 'M'), (8, 'S'),
   (9, 'U'), (10, 'R'), (11, 'W'), (12, 'D'), (13, 'K'), (14, 'G'),
   (15, 'O'), (16, 'H'), (17, 'V'), (18, 'F'), (20, 'L'), (22, 'P'),
   (23, 'J'), (24, 'B'), (25, 'X'), (26, 'C'), (27, 'Y'), (28, 'Z'),
   (29, 'Q'), (32, '5'), (33, '4'), (35, '3'), (39, '2'), (47, '1'),
   (48, '6'), (49, '='), (50, '/'), (56, '7'), (60, '8'), (62, '9'),
   (63, '0')]

def ituSlot (i : Nat) : Char := ((ituAssignment.lookup i).getD noChar)

/-- C4: the 64-slot Morse lookup table equals the ITU mapping exactly:
slot 2 holds E, 3 T, 4 I, 5 A, 6 N, 7 M, 8 S, 9 U, 10 R, 11 W, 12 D,
13 K, 14 G, 15 O, 16 H, 17 V, 18 F, 20 L, 22 P, 23 J, 24 B, 25 X, 26 C,
27 Y, 28 Z, 29 Q, 32 five, 33 four, 35 three, 39 two, 47 one, 48 six,
49 equals, 50 slash, 56 seven, 60 eight, 62 nine, 63 zero, and every
other index in the range 1 to 63 holds the no-assignment sentinel. -/
theorem c4_morse_table_itu :
    MorseTree.length = 64 ∧
    ∀ i : Fin 64, MorseTree.getD (i : Nat) noChar = ituSlot (i : Nat) := by
  decide

/- ===================== CW element decoder ======================
   internal/cw/morse.go: constants, DecoderConfig, Decoder state and
   the tone-event handlers. -/

/- ITU timing constants from morse.go (values of the Go consts). -/

def DahDitRatio : ℚ := 3
def IntraCharSpaceRatio : ℚ := 1
def MillisecondsPerMinute : ℚ := 60000
def DitsPerWord : ℚ := 50
def AdaptiveWeightOld : ℚ := 9 / 10

structure DecoderConfig where
  initialWPM : ℤ
  adaptiveTiming : Bool
  adaptiveSmoothing : ℚ
  ditDahBoundary : ℚ
  charWordBoundary : ℚ
  farnsworthWPM : ℤ
  deriving DecidableEq

/- Mutable Decoder state (morse.go struct Decoder, without the config
   and the callback pointer). -/
structure DecoderState where
  ditDurationMs : ℚ
  treeIndex : ℤ
  inChar : Bool
  deriving DecidableEq

/- dsp.ToneEvent as seen by the decoder; the Duration field enters the
   decoder through float64(event.Duration.Milliseconds()), so it is
   carried here as its integer millisecond count. -/
structure ToneEventD where
  toneOn : Bool
  timestampMs : ℚ
  durationMs : ℤ
  magnitude : ℚ
  deriving DecidableEq

structure DecodedOutput where
  character : Char
  isWordSpace : Bool
  timestampMs : ℚ
  currentWPM : ℤ
  deriving DecidableEq

/- NewDecoder initial state: ditDurationMs = 60000 / (InitialWPM * 50),
   treeIndex = 1, inChar = false. -/
def freshDecoder (cfg : DecoderConfig) : DecoderState :=
  { ditDurationMs := MillisecondsPerMinute / ((cfg.initialWPM : ℚ) * DitsPerWord)
    treeIndex := 1
    inChar := false }

/- Decoder.Reset (morse.go). -/
def decoderReset (cfg : DecoderConfig) (_s : DecoderState) : DecoderState :=
  { ditDurationMs := MillisecondsPerMinute / ((cfg.initialWPM : ℚ) * DitsPerWord)
    treeIndex := 1
    inChar := false }

/- Decoder.adaptTiming (morse.go): both assignments to d.ditDurationMs
   are embedded; the second reads the value written by the first. -/
def adaptTiming (cfg : DecoderConfig) (ditDurationMs durationMs : ℚ)
    (isDah : Bool) : ℚ :=
  let estimatedDit := if isDah then durationMs / DahDitRatio else durationMs
  let smoothing := cfg.adaptiveSmoothing
  let dit1 := (AdaptiveWeightOld - smoothing + smoothing) * ditDurationMs +
    smoothing * estimatedDit
  (1 - smoothing) * dit1 + smoothing * estimatedDit

/- Decoder.currentWPM (morse.go).  Go int(wpm + 0.5) truncates toward
   zero, which is the floor for the non-negative values that arise when
   ditDurationMs is positive. -/
def currentWPM (cfg : DecoderConfig) (s : DecoderState) : ℤ :=
  if s.ditDurationMs ≤ 0 then cfg.initialWPM
  else ⌊MillisecondsPerMinute / (s.ditDurationMs * DitsPerWord) + 1 / 2⌋

/- Decoder.handleToneEnd (morse.go). It never invokes the callback. -/
def handleToneEnd (cfg : DecoderConfig) (s : DecoderState)
    (e : ToneEventD) : DecoderState :=
  let durationMs : ℚ := (e.durationMs : ℚ)
  let isDah := durationMs > s.ditDurationMs * cfg.ditDahBoundary
  let dit1 := if cfg.adaptiveTiming
    then adaptTiming cfg s.ditDurationMs durationMs (decide isDah)
    else s.ditDurationMs
  let ti0 := if s.inChar then s.treeIndex else 1
  let ti1 := if isDah then ti0 * 2 + 1 else ti0 * 2
  if ti1 ≥ (MorseTree.length : ℤ) then
    { ditDurationMs := dit1, treeIndex := 1, inChar := false }
  else
    { ditDurationMs := dit1, treeIndex := ti1, inChar := true }

/- Decoder.emitCharacter (morse.go): returns the outputs delivered to
   the callback together with the reset state. -/
def emitCharacter (cfg : DecoderConfig) (s : DecoderState)
    (timestampMs : ℚ) : DecoderState × List DecodedOutput :=
  let outs :=
    if s.treeIndex > 0 ∧ s.treeIndex < (MorseTree.length : ℤ) then
      let c := MorseTree.getD s.treeIndex.toNat noChar
      if c ≠ noChar then
        [{ character := c, isWordSpace := false, timestampMs := timestampMs,
           currentWPM := currentWPM cfg s }]
      else []
    else []
  ({ s with treeIndex := 1, inChar := false }, outs)

/- Decoder.emitWordSpace (morse.go). -/
def emitWordSpace (cfg : DecoderConfig) (s : DecoderState)
    (timestampMs : ℚ) : DecodedOutput :=
  { character := ' ', isWordSpace := true, timestampMs := timestampMs,
    currentWPM := currentWPM cfg s }

/- The effective dit for spacing, using Farnsworth timing when it is
   configured (body of handleSilenceEnd). -/
def spacingDitMs (cfg : DecoderConfig) (s : DecoderState) : ℚ :=
  if cfg.farnsworthWPM > 0 ∧ cfg.farnsworthWPM < cfg.initialWPM then
    MillisecondsPerMinute / ((cfg.farnsworthWPM : ℚ) * DitsPerWord)
  else s.ditDurationMs

/- Decoder.handleSilenceEnd (morse.go). -/
def handleSilenceEnd (cfg : DecoderConfig) (s : DecoderState)
    (e : ToneEventD) : DecoderState × List DecodedOutput :=
  if ¬ s.inChar then (s, [])
  else
    let durationMs : ℚ := (e.durationMs : ℚ)
    let isWordSpace := durationMs > spacingDitMs cfg s * cfg.charWordBoundary
    let isCharSpace := durationMs > spacingDitMs cfg s * IntraCharSpaceRatio
    if isCharSpace ∨ isWordSpace then
      let p := emitCharacter cfg s e.timestampMs
      if isWordSpace then
        (p.1, p.2 ++ [emitWordSpace cfg p.1 e.timestampMs])
      else p
    else (s, [])

/- Decoder.HandleToneEvent (morse.go). -/
def handleToneEvent (cfg : DecoderConfig) (s : DecoderState)
    (e : ToneEventD) : DecoderState × List DecodedOutput :=
  if e.toneOn then handleSilenceEnd cfg s e
  else (handleToneEnd cfg s e, [])

/- A sequence of public calls on a Decoder. -/
inductive DecoderOp where
  | event (e : ToneEventD)
  | reset
  deriving DecidableEq

def decoderStep (cfg : DecoderConfig) (s : DecoderState) :
    DecoderOp → DecoderState
  | .event e => (handleToneEvent cfg s e).1
  | .reset => decoderReset cfg s

def runDecoder (cfg : DecoderConfig) (ops : List DecoderOp) : DecoderState :=
  ops.foldl (decoderStep cfg) (freshDecoder cfg)

/- ===== C2: the tree index never leaves the range 1 to 63 ===== -/

def treeIndexInv (s : DecoderState) : Prop :=
  1 ≤ s.treeIndex ∧ s.treeIndex < (MorseTree.length : ℤ)

theorem handleToneEnd_inv (cfg : DecoderConfig) (s : DecoderState)
    (e : ToneEventD) (h : treeIndexInv s) :
    treeIndexInv (handleToneEnd cfg s e) := by
  obtain ⟨h1, _⟩ := h
  unfold handleToneEnd
  by_cases hin : s.inChar <;> by_cases hdah :
      ((e.durationMs : ℚ) > s.ditDurationMs * cfg.ditDahBoundary) <;>
    simp only [hin, hdah, if_true, if_false, ite_true, ite_false] <;>
    split <;> constructor <;>
    simp_all [treeIndexInv, morseTree_length_int] <;> omega

theorem emitCharacter_inv (cfg : DecoderConfig) (s : DecoderState)
    (t : ℚ) : treeIndexInv (emitCharacter cfg s t).1 := by
  constructor <;> simp [emitCharacter, morseTree_length]

theorem handleSilenceEnd_fst (cfg : DecoderConfig) (s : DecoderState)
    (e : ToneEventD) :
    (handleSilenceEnd cfg s e).1 = s ∨
    (handleSilenceEnd cfg s e).1 = { s with treeIndex := 1, inChar := false } := by
  simp only [handleSilenceEnd, emitCharacter]
  split_ifs <;> simp

theorem handleSilenceEnd_inv (cfg : DecoderConfig) (s : DecoderState)
    (e : ToneEventD) (h : treeIndexInv s) :
    treeIndexInv (handleSilenceEnd cfg s e).1 := by
  rcases handleSilenceEnd_fst cfg s e with heq | heq <;> rw [heq]
  · exact h
  · constructor <;> simp [morseTree_length_int]

theorem decoderStep_inv (cfg : DecoderConfig) (s : DecoderState)
    (op : DecoderOp) (h : treeIndexInv s) :
    treeIndexInv (decoderStep cfg s op) := by
  cases op with
  | event e =>
      simp only [decoderStep, handleToneEvent]
      split
      · exact handleSilenceEnd_inv cfg s e h
      · exact handleToneEnd_inv cfg s e h
  | reset =>
      constructor <;> simp [decoderStep, decoderReset, morseTree_length]

theorem freshDecoder_inv (cfg : DecoderConfig) :
    treeIndexInv (freshDecoder cfg) := by
  constructor <;> simp [freshDecoder, morseTree_length]

theorem runDecoder_inv (cfg : DecoderConfig) (ops : List DecoderOp) :
    treeIndexInv (runDecoder cfg ops) := by
  have : ∀ s, treeIndexInv s →
      treeIndexInv (ops.foldl (decoderStep cfg) s) := by
    induction ops with
    | nil => intro s h; exact h
    | cons op rest ih =>
        intro s h
        exact ih _ (decoderStep_inv cfg s op h)
  exact this _ (freshDecoder_inv cfg)

/-- C2: over every sequence of HandleToneEvent and Reset calls on a
freshly constructed Decoder, the tree index always satisfies
1 ≤ treeIndex < 64; and whenever walking the tree on a tone-end event
would make the index reach 64 or beyond, the decoder resets to
treeIndex = 1 with inChar = false, dropping the element without
emitting anything (tone-end handling emits no output). -/
theorem c2_tree_index_bound :
    (∀ (cfg : DecoderConfig) (ops : List DecoderOp),
      1 ≤ (runDecoder cfg ops).treeIndex ∧
      (runDecoder cfg ops).treeIndex < 64) ∧
    (∀ (cfg : DecoderConfig) (s : DecoderState) (e : ToneEventD),
      e.toneOn = false →
      s.inChar = true →
      (if (e.durationMs : ℚ) > s.ditDurationMs * cfg.ditDahBoundary
        then s.treeIndex * 2 + 1 else s.treeIndex * 2) ≥ 64 →
      (handleToneEvent cfg s e).1.treeIndex = 1 ∧
      (handleToneEvent cfg s e).1.inChar = false ∧
      (handleToneEvent cfg s e).2 = []) := by
  constructor
  · intro cfg ops
    have h := runDecoder_inv cfg ops
    rw [treeIndexInv, morseTree_length] at h
    exact_mod_cast h
  · intro cfg s e hon hin hover
    unfold handleToneEvent handleToneEnd
    by_cases hdah : ((e.durationMs : ℚ) > s.ditDurationMs * cfg.ditDahBoundary)
    · rw [if_pos hdah] at hover
      simp [hon, hin, hdah, hover, morseTree_length_int]
    · rw [if_neg hdah] at hover
      simp [hon, hin, hdah, hover, morseTree_length_int]

/-- Witness for C2 at concrete inputs: a run of one dah event keeps the
index in range, and a tone-end on a state at index 32 with a dit
overflows (64) and resets without output. -/
theorem c2_tree_index_bound_witness :
    (1 ≤ (runDecoder
        { initialWPM := 15, adaptiveTiming := false, adaptiveSmoothing := 1/10,
          ditDahBoundary := 2, charWordBoundary := 5, farnsworthWPM := 0 }
        [.event { toneOn := false, timestampMs := 0, durationMs := 240,
                  magnitude := 4/5 }]).treeIndex ∧
      (runDecoder
        { initialWPM := 15, adaptiveTiming := false, adaptiveSmoothing := 1/10,
          ditDahBoundary := 2, charWordBoundary := 5, farnsworthWPM := 0 }
        [.event { toneOn := false, timestampMs := 0, durationMs := 240,
                  magnitude := 4/5 }]).treeIndex < 64) ∧
    ((handleToneEvent
        { initialWPM := 15, adaptiveTiming := false, adaptiveSmoothing := 1/10,
          ditDahBoundary := 2, charWordBoundary := 5, farnsworthWPM := 0 }
        { ditDurationMs := 80, treeIndex := 32, inChar := true }
        { toneOn := false, timestampMs := 0, durationMs := 80,
          magnitude := 4/5 }).1.treeIndex = 1 ∧
      (handleToneEvent
        { initialWPM := 15, adaptiveTiming := false, adaptiveSmoothing := 1/10,
          ditDahBoundary := 2, charWordBoundary := 5, farnsworthWPM := 0 }
        { ditDurationMs := 80, treeIndex := 32, inChar := true }
        { toneOn := false, timestampMs := 0, durationMs := 80,
          magnitude := 4/5 }).1.inChar = false ∧
      (handleToneEvent
        { initialWPM := 15, adaptiveTiming := false, adaptiveSmoothing := 1/10,
          ditDahBoundary := 2, charWordBoundary := 5, farnsworthWPM := 0 }
        { ditDurationMs := 80, treeIndex := 32, inChar := true }
        { toneOn := false, timestampMs := 0, durationMs := 80,
          magnitude := 4/5 }).2 = []) :=
  ⟨c2_tree_index_bound.1 _ _,
   c2_tree_index_bound.2 _ _ _ (by decide) (by decide) (by norm_num)⟩

/- ===== C8: word gap emits character then word space ===== -/

/-- C8: when the Decoder is building a character and handles a tone-on
event whose preceding silence exceeds the spacing dit times the
char-word boundary, it emits the character at the current tree index
(only if that slot is non-empty) followed immediately by a word-space
output whose character is the space code point 0x20 with the word-space
flag set, and the state is reset to treeIndex = 1 with inChar false. -/
theorem c8_word_space (cfg : DecoderConfig) (s : DecoderState)
    (e : ToneEventD) (hin : s.inChar = true) (hon : e.toneOn = true)
    (hgap : (e.durationMs : ℚ) > spacingDitMs cfg s * cfg.charWordBoundary) :
    (handleToneEvent cfg s e).1 = { s with treeIndex := 1, inChar := false } ∧
    (handleToneEvent cfg s e).2 =
      (if s.treeIndex > 0 ∧ s.treeIndex < 64 ∧
          MorseTree.getD s.treeIndex.toNat noChar ≠ noChar then
        [{ character := MorseTree.getD s.treeIndex.toNat noChar,
           isWordSpace := false, timestampMs := e.timestampMs,
           currentWPM := currentWPM cfg s }]
      else []) ++
      [{ character := ' ', isWordSpace := true, timestampMs := e.timestampMs,
         currentWPM := currentWPM cfg s }] ∧
    (' ' = Char.ofNat 0x20) := by
  refine ⟨?_, ?_, by decide⟩
  · simp [handleToneEvent, hon, handleSilenceEnd, hin, hgap, emitCharacter]
  · have hwpm : currentWPM cfg { s with treeIndex := 1, inChar := false } =
        currentWPM cfg s := rfl
    simp only [handleToneEvent, hon, if_true, handleSilenceEnd, hin,
      not_true_eq_false, if_false, hgap, or_true, if_pos, emitCharacter,
      emitWordSpace, hwpm, morseTree_length_int]
    split_ifs with h1 h2 h3 <;> simp_all

/-- Witness for C8: at 15 WPM with char-word boundary 5, a 600 ms
silence after a single dit (tree index 2) emits the letter E and then a
word space. -/
theorem c8_word_space_witness :
    (handleToneEvent
        { initialWPM := 15, adaptiveTiming := false, adaptiveSmoothing := 1/10,
          ditDahBoundary := 2, charWordBoundary := 5, farnsworthWPM := 0 }
        { ditDurationMs := 80, treeIndex := 2, inChar := true }
        { toneOn := true, timestampMs := 1000, durationMs := 600,
          magnitude := 4/5 }).1 =
      { ditDurationMs := 80, treeIndex := 1, inChar := false } ∧
    (handleToneEvent
        { initialWPM := 15, adaptiveTiming := false, adaptiveSmoothing := 1/10,
          ditDahBoundary := 2, charWordBoundary := 5, farnsworthWPM := 0 }
        { ditDurationMs := 80, treeIndex := 2, inChar := true }
        { toneOn := true, timestampMs := 1000, durationMs := 600,
          magnitude := 4/5 }).2 =
      [{ character := 'E', isWordSpace := false, timestampMs := 1000,
         currentWPM := 15 },
       { character := ' ', isWordSpace := true, timestampMs := 1000,
         currentWPM := 15 }] := by
  have h := c8_word_space
    { initialWPM := 15, adaptiveTiming := false, adaptiveSmoothing := 1/10,
      ditDahBoundary := 2, charWordBoundary := 5, farnsworthWPM := 0 }
    { ditDurationMs := 80, treeIndex := 2, inChar := true }
    { toneOn := true, timestampMs := 1000, durationMs := 600,
      magnitude := 4/5 } rfl rfl (by norm_num [spacingDitMs])
  refine ⟨h.1, ?_⟩
  rw [h.2.1]
  norm_num [currentWPM, MillisecondsPerMinute, DitsPerWord]
  decide

/- ===== C1: the adaptive-timing update ===== -/

/- The standard EMA update exactly as the claim words it (the second,
   specification-side definition for comparison with adaptTiming). -/
def specAdaptTiming (smoothing dit dur : ℚ) (isDah : Bool) : ℚ :=
  let observedDit := if isDah then dur / 3 else dur
  (1 - smoothing) * dit + smoothing * observedDit

/-- C1: the claim asserts the dit estimate is updated exactly once by
the standard EMA and that the first assignment in adaptTiming is dead.
In the source the first assignment is live: the second assignment reads
the value it wrote, so the net update is
dit := (1 - s) * ((9/10) * dit + s * obs) + s * obs, not the EMA.
At smoothing 0 with an 80 ms dit and an 80 ms tone the source yields
72 while the claimed EMA yields 80. -/
theorem c1_adapt_timing_bug :
    (∀ (cfg : DecoderConfig) (dit dur : ℚ) (isDah : Bool),
      adaptTiming cfg dit dur isDah =
        (1 - cfg.adaptiveSmoothing) *
            (AdaptiveWeightOld * dit +
              cfg.adaptiveSmoothing * (if isDah then dur / 3 else dur)) +
          cfg.adaptiveSmoothing * (if isDah then dur / 3 else dur)) ∧
    adaptTiming
      { initialWPM := 15, adaptiveTiming := true, adaptiveSmoothing := 0,
        ditDahBoundary := 2, charWordBoundary := 5, farnsworthWPM := 0 }
      80 80 false = 72 ∧
    specAdaptTiming 0 80 80 false = 80 := by
  refine ⟨?_, by norm_num [adaptTiming, AdaptiveWeightOld, DahDitRatio],
    by norm_num [specAdaptTiming]⟩
  intro cfg dit dur isDah
  cases isDah <;> simp [adaptTiming, DahDitRatio]

/- ===================== Tone-presence detector ======================
   internal/dsp/detector.go.  The magnitude for a block is supplied by
   the Goertzel estimator; the embedding takes it as an input (or, for
   the full Process path below, as an oracle over sample blocks).
   time.Now() is modelled as a rational millisecond oracle and the zero
   time.Time lastTransition as none. -/

structure DetectorConfig where
  threshold : ℚ
  hysteresis : ℤ
  overlapPct : ℤ
  agcEnabled : Bool
  agcDecay : ℚ
  agcAttack : ℚ
  agcWarmupBlocks : ℤ
  deriving DecidableEq

structure ToneEvent where
  toneOn : Bool
  timestampMs : ℚ
  durationMs : ℚ
  magnitude : ℚ
  deriving DecidableEq

/- Mutable Detector state (struct Detector without config, goertzel,
   block geometry and the callback pointer). -/
structure DetectorState where
  overlapBuffer : List ℚ
  agcPeak : ℚ
  warmupCounter : ℤ
  toneState : Bool
  pendingState : Bool
  hysteresisCount : ℤ
  lastTransition : Option ℚ
  deriving DecidableEq

/- NewDetector state initialization (detector.go): agcPeak starts at
   1.0 to prevent false triggers during warmup. -/
def freshDetector : DetectorState :=
  { overlapBuffer := []
    agcPeak := 1
    warmupCounter := 0
    toneState := false
    pendingState := false
    hysteresisCount := 0
    lastTransition := none }

/- Detector.Reset (detector.go): note it writes agcPeak = 0.001 and
   does not touch warmupCounter. -/
def detectorReset (s : DetectorState) : DetectorState :=
  { overlapBuffer := []
    agcPeak := 1 / 1000
    warmupCounter := s.warmupCounter
    toneState := false
    pendingState := false
    hysteresisCount := 0
    lastTransition := none }

/- Detector.applyAGC (detector.go). -/
def applyAGC (cfg : DetectorConfig) (magnitude : ℚ) (s : DetectorState) :
    ℚ × DetectorState :=
  let peak1 := if magnitude > s.agcPeak
    then s.agcPeak + cfg.agcAttack * (magnitude - s.agcPeak)
    else s.agcPeak * cfg.agcDecay
  let peak2 := if peak1 < 1 / 1000 then 1 / 1000 else peak1
  let normalized := magnitude / peak2
  let clamped := if normalized > 1 then 1 else normalized
  (clamped, { s with agcPeak := peak2 })

/- Detector.updateHysteresis (detector.go): returns the updated state
   together with the events delivered to the callback. -/
def updateHysteresis (cfg : DetectorConfig) (now : ℚ) (tonePresent : Bool)
    (magnitude : ℚ) (s : DetectorState) : DetectorState × List ToneEvent :=
  if tonePresent = s.toneState then
    ({ s with pendingState := s.toneState, hysteresisCount := 0 }, [])
  else
    let s1 := if tonePresent = s.pendingState
      then { s with hysteresisCount := s.hysteresisCount + 1 }
      else { s with pendingState := tonePresent, hysteresisCount := 1 }
    if s1.hysteresisCount ≥ cfg.hysteresis then
      let duration := match s1.lastTransition with
        | none => 0
        | some t => now - t
      let s2 := { s1 with toneState := s1.pendingState,
                          lastTransition := some now,
                          hysteresisCount := 0 }
      (s2, [{ toneOn := s2.toneState, timestampMs := now,
              durationMs := duration, magnitude := magnitude }])
    else (s1, [])

/- Detector.processBlock (detector.go), with the Goertzel magnitude for
   the block passed in and time.Now() passed as now. -/
def processBlock (cfg : DetectorConfig) (now : ℚ) (magnitude : ℚ)
    (s : DetectorState) : DetectorState × List ToneEvent :=
  if s.warmupCounter < cfg.agcWarmupBlocks then
    let s1 := { s with warmupCounter := s.warmupCounter + 1 }
    let s2 := if cfg.agcEnabled ∧ magnitude > 1 / 1000 then
        (if magnitude > s1.agcPeak then { s1 with agcPeak := magnitude }
         else if s1.warmupCounter = 1 then { s1 with agcPeak := magnitude }
         else s1)
      else s1
    (s2, [])
  else
    let p := if cfg.agcEnabled then applyAGC cfg magnitude s
      else (magnitude, s)
    let tonePresent := decide (p.1 > cfg.threshold)
    updateHysteresis cfg now tonePresent p.1 p.2

/- Folding processBlock over a sequence of (now, magnitude) block
   inputs, accumulating emitted events. -/
def runBlocks (cfg : DetectorConfig) (inputs : List (ℚ × ℚ))
    (s : DetectorState) : DetectorState × List ToneEvent :=
  match inputs with
  | [] => (s, [])
  | (now, m) :: rest =>
      let p := processBlock cfg now m s
      let q := runBlocks cfg rest p.1
      (q.1, p.2 ++ q.2)

/- ===== C3: reset versus fresh construction ===== -/

/-- C3 counterexample: the claim that reset leaves every component in
the observable state of a fresh construction fails for the Detector:
a newly constructed Detector has AGC peak 1.0 while Reset sets it to
0.001, and Reset leaves the warmup counter at its current value (here 7)
instead of the fresh value 0. -/
theorem c3_reset_counterexample :
    (detectorReset freshDetector).agcPeak ≠ freshDetector.agcPeak ∧
    (detectorReset { freshDetector with warmupCounter := 7 }).warmupCounter ≠
      freshDetector.warmupCounter := by
  constructor <;> norm_num [detectorReset, freshDetector]

/-- C3 amended: the Decoder resets exactly to its freshly constructed
state; the Detector resets the carry-over buffer, hysteresis state and
last-transition time to their fresh values but sets the AGC peak to
0.001 (a fresh Detector starts at 1.0) and leaves the warmup counter
unchanged. -/
theorem c3_reset_amended :
    (∀ (cfg : DecoderConfig) (s : DecoderState),
      decoderReset cfg s = freshDecoder cfg) ∧
    (∀ s : DetectorState,
      (detectorReset s).overlapBuffer = freshDetector.overlapBuffer ∧
      (detectorReset s).toneState = freshDetector.toneState ∧
      (detectorReset s).pendingState = freshDetector.pendingState ∧
      (detectorReset s).hysteresisCount = freshDetector.hysteresisCount ∧
      (detectorReset s).lastTransition = freshDetector.lastTransition ∧
      (detectorReset s).agcPeak = 1 / 1000 ∧
      freshDetector.agcPeak = 1 ∧
      (detectorReset s).warmupCounter = s.warmupCounter) := by
  exact ⟨fun _ _ => rfl, fun _ => ⟨rfl, rfl, rfl, rfl, rfl, rfl, rfl, rfl⟩⟩

/- ===== C5: warmup suppression ===== -/

theorem runBlocks_warmup (cfg : DetectorConfig) (inputs : List (ℚ × ℚ))
    (s : DetectorState)
    (h : s.warmupCounter + (inputs.length : ℤ) ≤ cfg.agcWarmupBlocks) :
    (runBlocks cfg inputs s).2 = [] ∧
    (runBlocks cfg inputs s).1.warmupCounter =
      s.warmupCounter + (inputs.length : ℤ) := by
  induction inputs generalizing s with
  | nil => simp [runBlocks]
  | cons i rest ih =>
      obtain ⟨now, m⟩ := i
      have hlt : s.warmupCounter < cfg.agcWarmupBlocks := by
        have : (0 : ℤ) < ((rest.length + 1 : ℕ) : ℤ) := by positivity
        simp only [List.length_cons] at h
        omega
      have hstep : (processBlock cfg now m s).2 = [] ∧
          (processBlock cfg now m s).1.warmupCounter =
            s.warmupCounter + 1 := by
        simp only [processBlock, if_pos hlt]
        split_ifs <;> simp
      have hrec := ih (processBlock cfg now m s).1 (by
        rw [hstep.2]
        simp only [List.length_cons] at h
        push_cast at h ⊢
        omega)
      simp only [runBlocks, hstep.1, hrec.1, List.nil_append, hrec.2,
        hstep.2, List.length_cons]
      constructor
      · trivial
      · push_cast
        ring

/-- C5: with agcWarmupBlocks = W, a Detector whose warmup counter is at
its fresh value 0 emits no ToneEvent over the first n processed blocks
for any n ≤ W, whatever the block magnitudes are. -/
theorem c5_warmup_suppression (cfg : DetectorConfig)
    (inputs : List (ℚ × ℚ)) (n : ℕ) (s : DetectorState)
    (hfresh : s.warmupCounter = 0)
    (hn : (n : ℤ) ≤ cfg.agcWarmupBlocks) :
    (runBlocks cfg (inputs.take n) s).2 = [] := by
  refine (runBlocks_warmup cfg (inputs.take n) s ?_).1
  rw [hfresh]
  have : (inputs.take n).length ≤ n := inputs.length_take_le n
  omega

/-- Witness for C5: a fresh Detector with 3 warmup blocks emits nothing
on three maximal-magnitude blocks. -/
theorem c5_warmup_suppression_witness :
    (runBlocks
      { threshold := 2/5, hysteresis := 0, overlapPct := 0,
        agcEnabled := true, agcDecay := 9995/10000, agcAttack := 1/10,
        agcWarmupBlocks := 3 }
      ([(0, 100), (10, 100), (20, 100)].take 3) freshDetector).2 = [] :=
  c5_warmup_suppression _ _ 3 _ rfl (by decide)

/- ===== C6: hysteresis discipline ===== -/

theorem runHysteresis_no_flip (cfg : DetectorConfig)
    (inputs : List (ℚ × Bool × ℚ)) (s : DetectorState)
    (hc : 0 ≤ s.hysteresisCount)
    (h : s.hysteresisCount + (inputs.length : ℤ) < cfg.hysteresis) :
    ((inputs.foldl
        (fun st i => (updateHysteresis cfg i.1 i.2.1 i.2.2 st).1) s)).toneState
      = s.toneState := by
  induction inputs generalizing s with
  | nil => rfl
  | cons i rest ih =>
      obtain ⟨now, b, m⟩ := i
      simp only [List.length_cons] at h
      have hlen : (0 : ℤ) ≤ (rest.length : ℤ) := by positivity
      have hx : s.hysteresisCount + 1 < cfg.hysteresis := by
        push_cast at h
        omega
      set s1 := (updateHysteresis cfg now b m s).1 with hs1
      have hstep : s1.toneState = s.toneState ∧
          0 ≤ s1.hysteresisCount ∧ s1.hysteresisCount ≤ s.hysteresisCount + 1 := by
        rw [hs1]
        simp only [updateHysteresis]
        split_ifs <;> (try dsimp only at *) <;> refine ⟨?_, ?_, ?_⟩ <;>
          first | rfl | omega
      simp only [List.foldl_cons]
      have h22 := hstep.2.2
      rw [ih s1 hstep.2.1 (by push_cast at h ⊢; omega), hstep.1]

/-- C6: with hysteresis H at least 1, starting from any state whose
pending count is 0 (as after construction, any agreeing block, or any
confirmed transition), the confirmed tone state is unchanged by any run
of fewer than H blocks; and a block whose tone-present decision agrees
with the confirmed state resets the pending count to zero and changes
nothing else observable. -/
theorem c6_hysteresis_discipline :
    (∀ (cfg : DetectorConfig) (inputs : List (ℚ × Bool × ℚ))
        (s : DetectorState),
      s.hysteresisCount = 0 →
      (inputs.length : ℤ) < cfg.hysteresis →
      ((inputs.foldl
          (fun st i => (updateHysteresis cfg i.1 i.2.1 i.2.2 st).1) s)).toneState
        = s.toneState) ∧
    (∀ (cfg : DetectorConfig) (now : ℚ) (b : Bool) (m : ℚ)
        (s : DetectorState),
      b = s.toneState →
      updateHysteresis cfg now b m s =
        ({ s with pendingState := s.toneState, hysteresisCount := 0 }, [])) := by
  constructor
  · intro cfg inputs s hc hlen
    exact runHysteresis_no_flip cfg inputs s (by omega) (by omega)
  · intro cfg now b m s hb
    simp [updateHysteresis, hb]

/-- Witness for C6: with H = 3, two disagreeing blocks leave the
confirmed state off, and an agreeing block resets the pending count. -/
theorem c6_hysteresis_discipline_witness :
    ([((0 : ℚ), true, (1 : ℚ)), (10, true, 1)].foldl
        (fun st i =>
          (updateHysteresis
            { threshold := 2/5, hysteresis := 3, overlapPct := 0,
              agcEnabled := true, agcDecay := 9995/10000, agcAttack := 1/10,
              agcWarmupBlocks := 0 } i.1 i.2.1 i.2.2 st).1)
        freshDetector).toneState = freshDetector.toneState ∧
    updateHysteresis
        { threshold := 2/5, hysteresis := 3, overlapPct := 0,
          agcEnabled := true, agcDecay := 9995/10000, agcAttack := 1/10,
          agcWarmupBlocks := 0 } 0 false 1 freshDetector =
      ({ freshDetector with pendingState := freshDetector.toneState, hysteresisCount := 0 }, []) :=
  ⟨c6_hysteresis_discipline.1 _ _ _ rfl (by decide),
   c6_hysteresis_discipline.2 _ _ _ _ _ rfl⟩

/- ===== Detector.Process block assembly (detector.go) ===== -/

/- NewDetector block geometry: overlapSize = blockSize * OverlapPct / 100
   (Go integer division) and hopSize = blockSize - overlapSize.  The
   block size comes from the Goertzel instance, whose constructor has
   validated it positive. -/

def overlapSize (blockSize : ℕ) (overlapPct : ℤ) : ℤ :=
  ((blockSize : ℤ) * overlapPct) / 100

def hopSize (blockSize : ℕ) (overlapPct : ℤ) : ℤ :=
  (blockSize : ℤ) - overlapSize blockSize overlapPct

/- The block-processing loop inside Detector.Process: while the buffer
   holds at least blockSize samples, process one block (its magnitude
   delivered by the Goertzel oracle mag, its wall-clock time by the
   oracle clock at the running block index k) and slide the buffer by
   hopSize, or clear it when the slide cannot advance.  Totality of
   this definition is the termination half of claim C10; it needs only
   a positive block size. -/
def processLoop (cfg : DetectorConfig) (blockSize : ℕ) (hop : ℤ)
    (mag : List ℚ → ℚ) (clock : ℕ → ℚ) (hb : 0 < blockSize) (k : ℕ)
    (s : DetectorState) : DetectorState × List ToneEvent :=
  if h : blockSize ≤ s.overlapBuffer.length then
    let p := processBlock cfg (clock k) (mag (s.overlapBuffer.take blockSize)) s
    let buf1 := if 0 < hop ∧ hop < (s.overlapBuffer.length : ℤ)
      then s.overlapBuffer.drop hop.toNat
      else []
    let q := processLoop cfg blockSize hop mag clock hb (k + 1)
      { p.1 with overlapBuffer := buf1 }
    (q.1, p.2 ++ q.2)
  else (s, [])
termination_by s.overlapBuffer.length
decreasing_by
  split_ifs with hcase
  · rw [List.length_drop]
    omega
  · simp only [List.length_nil]
    omega

/- Detector.Process: append the incoming samples to the carry-over
   buffer, then drain complete blocks. -/
def Process (cfg : DetectorConfig) (blockSize : ℕ) (hop : ℤ)
    (mag : List ℚ → ℚ) (clock : ℕ → ℚ) (hb : 0 < blockSize)
    (samples : List ℚ) (s : DetectorState) :
    DetectorState × List ToneEvent :=
  processLoop cfg blockSize hop mag clock hb 0
    { s with overlapBuffer := s.overlapBuffer ++ samples }

theorem processLoop_bound (cfg : DetectorConfig) (blockSize : ℕ) (hop : ℤ)
    (mag : List ℚ → ℚ) (clock : ℕ → ℚ) (hb : 0 < blockSize) (k : ℕ)
    (s : DetectorState) :
    ((processLoop cfg blockSize hop mag clock hb k s).1).overlapBuffer.length
      < blockSize := by
  have H : ∀ (n k : ℕ) (s : DetectorState), s.overlapBuffer.length ≤ n →
      ((processLoop cfg blockSize hop mag clock hb k s).1).overlapBuffer.length
        < blockSize := by
    intro n
    induction n with
    | zero =>
        intro k s hle
        unfold processLoop
        rw [dif_neg (by omega)]
        dsimp only
        omega
    | succ n ih =>
        intro k s hle
        unfold processLoop
        by_cases h : blockSize ≤ s.overlapBuffer.length
        · rw [dif_pos h]
          dsimp only
          refine ih (k + 1) _ ?_
          show (if 0 < hop ∧ hop < (s.overlapBuffer.length : ℤ)
            then s.overlapBuffer.drop hop.toNat else []).length ≤ n
          by_cases hcase : 0 < hop ∧ hop < (s.overlapBuffer.length : ℤ)
          · rw [if_pos hcase, List.length_drop]
            omega
          · rw [if_neg hcase]
            simp
        · rw [dif_neg h]
          dsimp only
          omega
  exact H s.overlapBuffer.length k s le_rfl

/-- C10: for every detector configuration with overlap percentage
between 0 and 99 (so the hop computed by the constructor is at least 1)
and positive block size, and every input sample slice, Process
terminates (the loop above is total) and leaves strictly fewer than
blockSize samples in the carry-over buffer. -/
theorem c10_process_bounded_carryover (cfg : DetectorConfig)
    (blockSize : ℕ) (mag : List ℚ → ℚ) (clock : ℕ → ℚ)
    (samples : List ℚ) (s : DetectorState) (hb : 0 < blockSize)
    (h0 : 0 ≤ cfg.overlapPct) (h99 : cfg.overlapPct ≤ 99) :
    1 ≤ hopSize blockSize cfg.overlapPct ∧
    ((Process cfg blockSize (hopSize blockSize cfg.overlapPct) mag clock hb
        samples s).1).overlapBuffer.length < blockSize := by
  constructor
  · unfold hopSize overlapSize
    have hbz : (1 : ℤ) ≤ (blockSize : ℤ) := by exact_mod_cast hb
    have : (blockSize : ℤ) * cfg.overlapPct ≤ (blockSize : ℤ) * 99 :=
      mul_le_mul_of_nonneg_left h99 (by omega)
    have h100 : ((blockSize : ℤ) * cfg.overlapPct) / 100 ≤
        ((blockSize : ℤ) * 99) / 100 := Int.ediv_le_ediv (by omega) this
    omega
  · exact processLoop_bound cfg blockSize _ mag clock hb 0 _

/-- Witness for C10 at a concrete configuration: block size 4, overlap
50 percent (hop 2), six samples into a fresh detector. -/
theorem c10_process_bounded_carryover_witness :
    1 ≤ hopSize 4 50 ∧
    ((Process
        { threshold := 2/5, hysteresis := 0, overlapPct := 50,
          agcEnabled := true, agcDecay := 9995/10000, agcAttack := 1/10,
          agcWarmupBlocks := 0 } 4 (hopSize 4 50) (fun _ => 0) (fun _ => 0)
        (by decide) [1, 2, 3, 4, 5, 6] freshDetector).1).overlapBuffer.length
      < 4 :=
  c10_process_bounded_carryover
    { threshold := 2/5, hysteresis := 0, overlapPct := 50,
      agcEnabled := true, agcDecay := 9995/10000, agcAttack := 1/10,
      agcWarmupBlocks := 0 } 4 (fun _ => 0) (fun _ => 0) [1, 2, 3, 4, 5, 6]
    freshDetector (by decide) (by decide) (by decide)

/- ===================== Goertzel constructor ======================
   internal/dsp/goertzel.go, NewGoertzel.  Only the validation sequence
   decides success versus error; the trigonometric precomputation that
   follows always succeeds and is not needed by any claim, so the
   embedded constructor returns the validated configuration. -/

inductive GoertzelError where
  | invalidBlockSize
  | invalidSampleRate
  | invalidFrequency
  deriving DecidableEq

structure GoertzelConfig where
  targetFrequency : ℚ
  sampleRate : ℚ
  blockSize : ℤ
  deriving DecidableEq

def NewGoertzel (cfg : GoertzelConfig) : Except GoertzelError GoertzelConfig :=
  if cfg.blockSize ≤ 0 then .error .invalidBlockSize
  else if cfg.sampleRate ≤ 0 then .error .invalidSampleRate
  else if cfg.targetFrequency ≤ 0 ∨ cfg.targetFrequency ≥ cfg.sampleRate / 2 then
    .error .invalidFrequency
  else .ok cfg

/-- C7: the Goertzel constructor returns an error exactly when the
configuration is invalid: construction succeeds if and only if the
block size is positive, the sample rate is positive, and the target
frequency is positive and strictly below half the sample rate. -/
theorem c7_goertzel_constructor_validation (cfg : GoertzelConfig) :
    (∃ g, NewGoertzel cfg = .ok g) ↔
      (0 < cfg.blockSize ∧ 0 < cfg.sampleRate ∧
        0 < cfg.targetFrequency ∧
        cfg.targetFrequency < cfg.sampleRate / 2) := by
  unfold NewGoertzel
  split_ifs with h1 h2 h3
  · constructor
    · rintro ⟨g, hg⟩
      exact absurd hg (by simp)
    · rintro ⟨hb, -, -, -⟩
      omega
  · constructor
    · rintro ⟨g, hg⟩
      exact absurd hg (by simp)
    · rintro ⟨-, hr, -, -⟩
      linarith
  · constructor
    · rintro ⟨g, hg⟩
      exact absurd hg (by simp)
    · rintro ⟨-, -, hf, hn⟩
      rcases h3 with h3 | h3
      · linarith
      · linarith
  · push_neg at h3
    exact ⟨fun _ => ⟨by omega, by linarith, h3.1, h3.2⟩, fun _ => ⟨cfg, rfl⟩⟩

/- ===================== Pattern-matching layer ======================
   internal/cw/adaptive.go.  An Element carries its GapAfter through
   the integer Milliseconds() projection, as calculateSuggestedBoundary
   reads it; the Text field of a pattern plays no role in the boundary
   computation and is omitted. -/

structure Element where
  isDah : Bool
  durationMs : ℤ
  gapAfterMs : ℤ
  timestampMs : ℚ
  isCharEnd : Bool
  isWordEnd : Bool
  deriving DecidableEq, Inhabited

structure MorsePattern where
  elements : List Bool
  breaks : List ℤ
  priority : ℤ
  deriving DecidableEq

/- gapRatio = float64(elements[i].GapAfter.Milliseconds()) / ditDuration -/
def gapRatio (dit : ℚ) (e : Element) : ℚ := (e.gapAfterMs : ℚ) / dit

/- The gap-collecting loop of calculateSuggestedBoundary runs i over
   0 ≤ i < len(pattern.Elements)-1 and i < len(elements)-1. -/
def patternGapCount (p : MorsePattern) (elements : List Element) : ℕ :=
  min (p.elements.length - 1) (elements.length - 1)

def interGapsOf (p : MorsePattern) (elements : List Element) (dit : ℚ) :
    List ℚ :=
  (List.range (patternGapCount p elements)).filterMap (fun (i : ℕ) =>
    if (i : ℤ) ∈ p.breaks then some (gapRatio dit (elements.getD i default))
    else none)

def intraGapsOf (p : MorsePattern) (elements : List Element) (dit : ℚ) :
    List ℚ :=
  (List.range (patternGapCount p elements)).filterMap (fun (i : ℕ) =>
    if (i : ℤ) ∈ p.breaks then none
    else some (gapRatio dit (elements.getD i default)))

/- AdaptiveDecoder.calculateSuggestedBoundary (adaptive.go), with the
   collection loop split into the two defs above. -/
def calculateSuggestedBoundary (p : MorsePattern) (elements : List Element)
    (dit : ℚ) : ℚ :=
  if p.breaks = [] ∨ elements.length < 2 then 0
  else
    let intraGaps := intraGapsOf p elements dit
    let interGaps := interGapsOf p elements dit
    if intraGaps = [] ∨ interGaps = [] then 0
    else
      let maxIntra := intraGaps.foldl (fun m g => if g > m then g else m) 0
      let minInter := interGaps.foldl (fun m g => if g < m then g else m)
        (interGaps.headD 0)
      if minInter > maxIntra then (maxIntra + minInter) / 2 else 0

/- The specification-side partition of the gap ratios: gaps between
   elements (indices 0 to length-2), split on break membership. -/

def specIntraRatios (p : MorsePattern) (elements : List Element) (dit : ℚ) :
    List ℚ :=
  (List.range (elements.length - 1)).filterMap (fun (i : ℕ) =>
    if (i : ℤ) ∈ p.breaks then none
    else some (gapRatio dit (elements.getD i default)))

def specInterRatios (p : MorsePattern) (elements : List Element) (dit : ℚ) :
    List ℚ :=
  (List.range (elements.length - 1)).filterMap (fun (i : ℕ) =>
    if (i : ℤ) ∈ p.breaks then some (gapRatio dit (elements.getD i default))
    else none)

/- Bridge lemmas: the running-maximum and running-minimum loops of
   calculateSuggestedBoundary compute the maximum and the minimum of
   the collected ratio lists. -/

theorem ifmax_eq_max (m g : ℚ) : (if g > m then g else m) = max m g := by
  rcases le_or_lt g m with h | h
  · rw [if_neg (not_lt.mpr h), max_eq_left h]
  · rw [if_pos h, max_eq_right h.le]

theorem ifmin_eq_min (m g : ℚ) : (if g < m then g else m) = min m g := by
  rcases le_or_lt m g with h | h
  · rw [if_neg (not_lt.mpr h), min_eq_left h]
  · rw [if_pos h, min_eq_right h.le]

theorem le_foldl_max (l : List ℚ) (a : ℚ) : a ≤ l.foldl max a := by
  induction l generalizing a with
  | nil => simp
  | cons x t ih => exact le_trans (le_max_left a x) (ih (max a x))

theorem mem_le_foldl_max (l : List ℚ) (a : ℚ) :
    ∀ x ∈ l, x ≤ l.foldl max a := by
  induction l generalizing a with
  | nil => simp
  | cons y t ih =>
      intro x hx
      rcases List.mem_cons.mp hx with rfl | hx
      · exact le_trans (le_max_right a x) (le_foldl_max t (max a x))
      · exact ih (max a y) x hx

theorem foldl_max_le (l : List ℚ) (a M : ℚ) (ha : a ≤ M)
    (h : ∀ x ∈ l, x ≤ M) : l.foldl max a ≤ M := by
  induction l generalizing a with
  | nil => exact ha
  | cons y t ih =>
      exact ih (max a y) (max_le ha (h y (List.mem_cons_self y t)))
        (fun x hx => h x (List.mem_cons_of_mem y hx))

theorem foldl_min_le_init (l : List ℚ) (a : ℚ) : l.foldl min a ≤ a := by
  induction l generalizing a with
  | nil => simp
  | cons x t ih => exact le_trans (ih (min a x)) (min_le_left a x)

theorem foldl_min_le_mem (l : List ℚ) (a : ℚ) :
    ∀ x ∈ l, l.foldl min a ≤ x := by
  induction l generalizing a with
  | nil => simp
  | cons y t ih =>
      intro x hx
      rcases List.mem_cons.mp hx with rfl | hx
      · exact le_trans (foldl_min_le_init t (min a x)) (min_le_right a x)
      · exact ih (min a y) x hx

theorem le_foldl_min (l : List ℚ) (a m : ℚ) (ha : m ≤ a)
    (h : ∀ x ∈ l, m ≤ x) : m ≤ l.foldl min a := by
  induction l generalizing a with
  | nil => exact ha
  | cons y t ih =>
      exact ih (min a y) (le_min ha (h y (List.mem_cons_self y t)))
        (fun x hx => h x (List.mem_cons_of_mem y hx))

theorem foldl_ifmax_eq (l : List ℚ) (M : ℚ) (hM : M ∈ l)
    (hub : ∀ x ∈ l, x ≤ M) (h0 : 0 ≤ M) :
    l.foldl (fun m g => if g > m then g else m) 0 = M := by
  have hfun : (fun (m g : ℚ) => if g > m then g else m) = max := by
    funext m g
    exact ifmax_eq_max m g
  rw [hfun]
  exact le_antisymm (foldl_max_le l 0 M h0 hub) (mem_le_foldl_max l 0 M hM)

theorem foldl_ifmin_eq (l : List ℚ) (m : ℚ) (hm : m ∈ l)
    (hlb : ∀ x ∈ l, m ≤ x) :
    l.foldl (fun a g => if g < a then g else a) (l.headD 0) = m := by
  have hfun : (fun (a g : ℚ) => if g < a then g else a) = min := by
    funext a g
    exact ifmin_eq_min a g
  have hhead : l.headD 0 ∈ l := by
    cases l with
    | nil => simp at hm
    | cons a t => exact List.mem_cons_self a t
  rw [hfun]
  exact le_antisymm (foldl_min_le_mem l _ m hm)
    (le_foldl_min l _ m (hlb _ hhead) hlb)

/- Every collected ratio is a gap of a buffer element divided by the
   dit estimate, hence non-negative when gaps are non-negative and
   the dit estimate positive. -/
theorem specRatios_nonneg (p : MorsePattern) (elements : List Element)
    (dit : ℚ) (hgaps : ∀ e ∈ elements, 0 ≤ e.gapAfterMs) (hdit : 0 < dit)
    (x : ℚ)
    (hx : x ∈ specIntraRatios p elements dit ∨
      x ∈ specInterRatios p elements dit) :
    0 ≤ x := by
  have key : ∀ i : ℕ, i ∈ List.range (elements.length - 1) →
      0 ≤ gapRatio dit (elements.getD i default) := by
    intro i hi
    have hilt : i < elements.length := by
      have := List.mem_range.mp hi
      omega
    have hmem : elements.getD i default ∈ elements := by
      rw [List.getD_eq_getElem elements default hilt]
      exact List.getElem_mem hilt
    have := hgaps _ hmem
    unfold gapRatio
    positivity
  rcases hx with hx | hx <;>
    obtain ⟨i, hi, hfi⟩ := List.mem_filterMap.mp hx <;>
    split_ifs at hfi <;> simp only [Option.some.injEq] at hfi <;>
    rw [← hfi] <;> exact key i hi

/-- C9: for a winning pattern match (the matched slice has exactly the
element count of the pattern), with the buffer gaps non-negative and
the dit estimate positive, the suggested inter-character boundary is
(max intra + min inter) / 2 whenever both the intra-character and
inter-character gap-ratio sets are non-empty and the least inter ratio
strictly exceeds the greatest intra ratio; in every other case no
suggestion (the zero sentinel) is produced. -/
theorem c9_suggested_boundary (p : MorsePattern) (elements : List Element)
    (dit : ℚ) (hlen : elements.length = p.elements.length)
    (hgaps : ∀ e ∈ elements, 0 ≤ e.gapAfterMs) (hdit : 0 < dit) :
    (∀ M m : ℚ,
      M ∈ specIntraRatios p elements dit →
      (∀ x ∈ specIntraRatios p elements dit, x ≤ M) →
      m ∈ specInterRatios p elements dit →
      (∀ x ∈ specInterRatios p elements dit, m ≤ x) →
      calculateSuggestedBoundary p elements dit =
        if M < m then (M + m) / 2 else 0) ∧
    ((specIntraRatios p elements dit = [] ∨
        specInterRatios p elements dit = []) →
      calculateSuggestedBoundary p elements dit = 0) := by
  have hcount : patternGapCount p elements = elements.length - 1 := by
    unfold patternGapCount
    rw [← hlen, min_self]
  have hintra : intraGapsOf p elements dit = specIntraRatios p elements dit := by
    unfold intraGapsOf specIntraRatios
    rw [hcount]
  have hinter : interGapsOf p elements dit = specInterRatios p elements dit := by
    unfold interGapsOf specInterRatios
    rw [hcount]
  constructor
  · intro M m hMmem hMub hmmem hmlb
    have hM0 : 0 ≤ M :=
      specRatios_nonneg p elements dit hgaps hdit M (Or.inl hMmem)
    have hintraNe : specIntraRatios p elements dit ≠ [] := by
      intro h
      rw [h] at hMmem
      simp at hMmem
    have hinterNe : specInterRatios p elements dit ≠ [] := by
      intro h
      rw [h] at hmmem
      simp at hmmem
    have h1 : ¬ (p.breaks = [] ∨ elements.length < 2) := by
      rintro (hbr | hlt)
      · refine hinterNe ?_
        unfold specInterRatios
        simp [hbr]
      · refine hinterNe ?_
        unfold specInterRatios
        have hz : elements.length - 1 = 0 := by omega
        rw [hz]
        rfl
    unfold calculateSuggestedBoundary
    rw [if_neg h1]
    dsimp only
    rw [if_neg (by
      rw [hintra, hinter]
      rintro (h | h)
      · exact hintraNe h
      · exact hinterNe h)]
    rw [hintra, hinter,
      foldl_ifmax_eq _ M hMmem hMub hM0,
      foldl_ifmin_eq _ m hmmem hmlb]
  · intro hempty
    have hB : intraGapsOf p elements dit = [] ∨
        interGapsOf p elements dit = [] := by
      rw [hintra, hinter]
      exact hempty
    unfold calculateSuggestedBoundary
    by_cases h1 : p.breaks = [] ∨ elements.length < 2
    · rw [if_pos h1]
    · rw [if_neg h1]
      dsimp only
      rw [if_pos hB]

/- Concrete inputs for the C9 witness: three elements matching a
   three-element pattern with one break after index 1. -/

def c9pat : MorsePattern :=
  { elements := [false, false, true], breaks := [1], priority := 1 }

def c9elems : List Element :=
  [{ isDah := false, durationMs := 80, gapAfterMs := 80,
     timestampMs := 0, isCharEnd := false, isWordEnd := false },
   { isDah := false, durationMs := 80, gapAfterMs := 240,
     timestampMs := 0, isCharEnd := true, isWordEnd := false },
   { isDah := true, durationMs := 240, gapAfterMs := 400,
     timestampMs := 0, isCharEnd := true, isWordEnd := true }]

theorem c9_intra_value : specIntraRatios c9pat c9elems 80 = [1] := by
  norm_num [specIntraRatios, gapRatio, c9pat, c9elems, List.range_succ,
    List.filterMap_cons]

theorem c9_inter_value : specInterRatios c9pat c9elems 80 = [3] := by
  norm_num [specInterRatios, gapRatio, c9pat, c9elems, List.range_succ,
    List.filterMap_cons]

/-- Witness for C9: intra ratio 1 and inter ratio 3 give the midpoint
suggestion 2. -/
theorem c9_suggested_boundary_witness :
    calculateSuggestedBoundary c9pat c9elems 80 = 2 := by
  rw [(c9_suggested_boundary c9pat c9elems 80
      (by decide) (by decide) (by norm_num)).1 1 3
      (by rw [c9_intra_value]; simp)
      (by rw [c9_intra_value]; simp)
      (by rw [c9_inter_value]; simp)
      (by rw [c9_inter_value]; simp)]
  norm_num

end CW
